import Mathlib

/-!
Verification of the SQL playground's admission-safety layer and connection
lifecycle manager.

The development shallowly embeds the Go sources:
  * `sqlvalidator` (the safety gatekeeper `IsSafeDDLOperation`, the dialect
    verifiers, the row-limit rewrite `HasLimitForSelect`, and `Validate`),
  * the HTTP handler `validateAndExecuteSQL` together with `executeQuery`
    (modelled as the database command they issue), and
  * `dbmanager` (`GetDatabaseConnection`, `connectWithRetry`, `tryConnect`,
    `GetConnectionStatuses`) as explicit state passing over an association
    list mirroring the package-level Go maps.

Strings are Lean `String`s; the Go standard-library functions used by the
sources (`strings.ToLower`, `strings.TrimSpace`, `strings.HasPrefix`,
`strings.Contains`, `regexp.MatchString`) are modelled below over `.data`
(the underlying `List Char`).  Case folding and space trimming are modelled
on the ASCII fragment, which covers every character class and literal the
sources match against.
-/

namespace SqlPlayground

/-! ## Go standard-library string primitives -/

/-- ASCII fragment of Go `unicode.ToLower`, applied by `strings.ToLower`
character-wise. -/
def goToLowerChar (c : Char) : Char :=
  if 'A' ≤ c ∧ c ≤ 'Z' then Char.ofNat (c.toNat + 32) else c

/-- Model of Go `strings.ToLower`. -/
def goToLower (s : String) : String :=
  ⟨s.data.map goToLowerChar⟩

/-- ASCII fragment of Go `unicode.IsSpace`, the class trimmed by
`strings.TrimSpace`: space, tab, newline, vertical tab, form feed,
carriage return. -/
def isSpaceGo (c : Char) : Bool :=
  c = ' ' || c = '\t' || c = '\n' || c = '\x0b' || c = '\x0c' || c = '\r'

/-- The character class of RE2's Perl class backslash-s, as used by Go's
`regexp`: space, tab, newline, form feed, carriage return (the vertical tab
is not included, unlike `unicode.IsSpace`). -/
def isSpaceRe (c : Char) : Bool :=
  c = ' ' || c = '\t' || c = '\n' || c = '\x0c' || c = '\r'

/-- RE2's digit class. -/
def isDigitRe (c : Char) : Bool :=
  '0' ≤ c && c ≤ '9'

/-- RE2's word class. -/
def isWordRe (c : Char) : Bool :=
  ('a' ≤ c && c ≤ 'z') || ('A' ≤ c && c ≤ 'Z') || isDigitRe c || c = '_'

/-- Drop an expected leading chunk from a list, returning the remainder when
the chunk is present.  Shared engine of the `strings.HasPrefix` and
`strings.Contains` models and of the literal case of the regex matcher. -/
def dropChunk : List Char → List Char → Option (List Char)
  | [], s => some s
  | _ :: _, [] => none
  | p :: ps, c :: cs => if p = c then dropChunk ps cs else none

/-- Model of Go `strings.HasPrefix s pre`. -/
def goStartsWith (s pre : String) : Bool :=
  (dropChunk pre.data s.data).isSome

/-- Model of Go `strings.TrimSpace`: remove leading and trailing
`unicode.IsSpace` characters. -/
def goTrimSpace (s : String) : String :=
  ⟨((s.data.dropWhile isSpaceGo).reverse.dropWhile isSpaceGo).reverse⟩

/-- Substring occurrence over lists: the engine of `strings.Contains`. -/
def containsChunk (sub : List Char) : List Char → Bool
  | [] => (dropChunk sub []).isSome
  | c :: cs => (dropChunk sub (c :: cs)).isSome || containsChunk sub cs

/-- Model of Go `strings.Contains s sub`. -/
def goContains (s sub : String) : Bool :=
  containsChunk sub.data s.data

/-! ## The regex fragment used by the validator

Every pattern in `validator.go`'s blocklist and the LIMIT detector of
`HasLimitForSelect` is a concatenation of: literal strings, alternations of
literal strings, and starred or plussed single-character classes.  We embed
exactly this fragment.  `searchToks` models `regexp.MatchString`: the
pattern may match anywhere in the subject (RE2 searches unanchored). -/

/-- The single-character classes occurring in the sources' patterns.
`dot` is RE2's default `.`: any character except newline. -/
inductive CharClass where
  | ws
  | digit
  | word
  | dot
deriving DecidableEq

/-- Membership in a character class. -/
def CharClass.mem : CharClass → Char → Bool
  | .ws, c => isSpaceRe c
  | .digit, c => isDigitRe c
  | .word, c => isWordRe c
  | .dot, c => c ≠ '\n'

/-- One token of a pattern: a literal chunk, an alternation of literal
chunks, or a starred / plussed character class. -/
inductive Tok where
  | lit : List Char → Tok
  | alt : List (List Char) → Tok
  | star : CharClass → Tok
  | plus : CharClass → Tok

/-- Backtracking helper for a starred class followed by the rest of the
pattern (continuation `k`): either stop consuming here, or consume one more
class character and continue. -/
def starAux (cl : CharClass) (k : List Char → Bool) : List Char → Bool
  | [] => k []
  | c :: rest => k (c :: rest) || (cl.mem c && starAux cl k rest)

/-- Match a token list against a prefix of the subject (the remainder of the
subject after the match is unconstrained, as in an unanchored search once
the start position is fixed). -/
def matchToks : List Tok → List Char → Bool
  | [] => fun _ => true
  | .lit p :: rest => fun s =>
      match dropChunk p s with
      | some s1 => matchToks rest s1
      | none => false
  | .alt ps :: rest => fun s =>
      ps.any fun p =>
        match dropChunk p s with
        | some s1 => matchToks rest s1
        | none => false
  | .star cl :: rest => fun s => starAux cl (matchToks rest) s
  | .plus cl :: rest => fun s =>
      match s with
      | [] => false
      | c :: s1 => cl.mem c && starAux cl (matchToks rest) s1

/-- Model of Go `regexp.MatchString` for the embedded fragment: try to match
at every start position. -/
def searchToks (toks : List Tok) : List Char → Bool
  | [] => matchToks toks []
  | c :: rest => matchToks toks (c :: rest) || searchToks toks rest

/-- `regexp.MatchString pattern s` for a tokenised pattern and a `String`
subject. -/
def regexMatch (toks : List Tok) (s : String) : Bool :=
  searchToks toks s.data

/-! ## The safety gatekeeper (`validator.go`) -/

/-- Result record of a safety check (`SafetyCheckResult` in `validator.go`);
the Go zero value of the `Error` field is the empty string. -/
structure SafetyCheckResult where
  Safe : Bool
  Error : String := ""
deriving DecidableEq

/-- Shorthand for the whitespace-run separator appearing throughout the
blocklist patterns. -/
def wsP : Tok := .plus .ws

/-- The ordered blocklist of `IsSafeDDLOperation` (validator.go lines
19 to 36), tokenised pattern by pattern in source order.  All thirteen Go
patterns compile, so the source's skip-on-compile-error branch is dead and
is not modelled. -/
def blockedPatterns : List (List Tok × String) :=
  [ ([.lit "drop".data, wsP, .alt ["database".data, "schema".data, "user".data]],
      "DROP DATABASE/SCHEMA/USER operations are not allowed"),
    ([.lit "truncate".data, wsP, .lit "database".data],
      "TRUNCATE DATABASE operations are not allowed"),
    ([.lit "delete".data, wsP, .lit "from".data, wsP,
        .alt ["user".data, "users".data, "permission".data, "permissions".data,
              "role".data, "roles".data, "account".data, "accounts".data]],
      "DELETE operations on sensitive tables are not allowed"),
    ([.lit "alter".data, wsP, .lit "user".data],
      "ALTER USER operations are not allowed"),
    ([.lit "grant".data, wsP, .lit "all".data],
      "GRANT ALL operations are not allowed"),
    ([.lit "revoke".data, wsP, .lit "all".data],
      "REVOKE ALL operations are not allowed"),
    ([.lit "shutdown".data],
      "SHUTDOWN operations are not allowed"),
    ([.lit "create".data, wsP, .alt ["database".data, "schema".data]],
      "CREATE DATABASE/SCHEMA operations are not allowed"),
    ([.lit "drop".data, wsP, .lit "table".data],
      "DROP TABLE operations are not allowed in this playground"),
    ([.lit "alter".data, wsP, .lit "table".data, wsP, .plus .word, wsP,
        .lit "drop".data, wsP, .lit "column".data],
      "ALTER TABLE DROP COLUMN operations are not allowed"),
    ([.lit "delete".data, wsP, .lit "from".data, wsP, .plus .word, wsP,
        .lit "where".data, wsP, .lit "1".data, .star .ws, .lit "=".data,
        .star .ws, .lit "1".data],
      "DELETE all records operations are not allowed"),
    ([.lit "update".data, wsP, .plus .word, wsP, .lit "set".data, wsP,
        .plus .dot, .lit "where".data, wsP, .lit "1".data, .star .ws,
        .lit "=".data, .star .ws, .lit "1".data],
      "UPDATE all records operations are not allowed"),
    ([.alt [";".data, "--".data], .star .ws,
        .alt ["drop".data, "delete".data, "update".data, "insert".data,
              "alter".data, "create".data]],
      "SQL injection attempts are not allowed") ]

/-- The first-match loop over the blocklist (validator.go lines 38 to 49):
return the message of the first pattern matching the lowered text. -/
def checkBlocked : List (List Tok × String) → List Char → Option String
  | [], _ => none
  | (p, msg) :: rest, s => if searchToks p s then some msg else checkBlocked rest s

/-- `verifySQLiteSafety` (validator.go lines 68 to 89). -/
def verifySQLiteSafety (sqlLower : String) : SafetyCheckResult :=
  if goContains sqlLower "pragma" &&
      (goContains sqlLower "journal_mode" || goContains sqlLower "synchronous" ||
        goContains sqlLower "secure_delete") then
    ⟨false, "PRAGMA statements that modify database settings are not allowed"⟩
  else if goContains sqlLower "attach database" then
    ⟨false, "ATTACH DATABASE operations are not allowed"⟩
  else
    ⟨true, ""⟩

/-- `verifyMySQLSafety` (validator.go lines 92 to 117). -/
def verifyMySQLSafety (sqlLower : String) : SafetyCheckResult :=
  if (goContains sqlLower "mysql." || goContains sqlLower "information_schema." ||
        goContains sqlLower "performance_schema.") &&
      (goContains sqlLower "insert" || goContains sqlLower "update" ||
        goContains sqlLower "delete" || goContains sqlLower "alter") then
    ⟨false, "Modifying system tables is not allowed"⟩
  else if goContains sqlLower "set global" || goContains sqlLower "set @@global" then
    ⟨false, "Setting global variables is not allowed"⟩
  else
    ⟨true, ""⟩

/-- The blocklist of dangerous PostgreSQL built-ins (validator.go lines
134 to 138). -/
def dangerousFunctions : List String :=
  ["pg_read_file", "pg_ls_dir", "pg_sleep",
   "copy", "lo_import", "lo_export",
   "pg_catalog.pg_file_write", "pg_catalog.pg_read_binary_file"]

/-- `verifyPostgreSQLSafety` (validator.go lines 120 to 150). -/
def verifyPostgreSQLSafety (sqlLower : String) : SafetyCheckResult :=
  if goContains sqlLower "pg_" &&
      (goContains sqlLower "insert" || goContains sqlLower "update" ||
        goContains sqlLower "delete" || goContains sqlLower "alter") then
    ⟨false, "Modifying system catalogs is not allowed"⟩
  else
    match dangerousFunctions.find? (fun f => goContains sqlLower f) with
    | some f => ⟨false, "Usage of potentially dangerous functions is not allowed: " ++ f⟩
    | none => ⟨true, ""⟩

/-- `IsSafeDDLOperation` (validator.go lines 15 to 65): lower the text, run
the ordered blocklist first-match-wins, then dispatch to the dialect
verifier; unknown dialects are denied. -/
def IsSafeDDLOperation (sql dialect : String) : SafetyCheckResult :=
  let sqlLower := goToLower sql
  match checkBlocked blockedPatterns sqlLower.data with
  | some msg => ⟨false, msg⟩
  | none =>
    match dialect with
    | "sqlite" => verifySQLiteSafety sqlLower
    | "mysql" => verifyMySQLSafety sqlLower
    | "postgresql" => verifyPostgreSQLSafety sqlLower
    | _ => ⟨false, "Unsupported SQL dialect"⟩

/-! ## The row-limit rewrite (`HasLimitForSelect`) -/

/-- The LIMIT detector regex of `HasLimitForSelect`: whitespace-run,
`limit`, whitespace-run, digit-run. -/
def limitPattern : List Tok :=
  [.plus .ws, .lit "limit".data, .plus .ws, .plus .digit]

/-- `HasLimitForSelect` (part_000 lines 154 to 171): non-SELECT statements
are unchanged; a SELECT whose lowered text matches the LIMIT detector is
unchanged; otherwise ` LIMIT 100` is appended and the rewrite is flagged. -/
def HasLimitForSelect (sql : String) : String × Bool :=
  let sqlLower := goToLower sql
  if !(goStartsWith (goTrimSpace sqlLower) "select") then
    (sql, false)
  else if regexMatch limitPattern sqlLower then
    (sql, false)
  else
    (sql ++ " LIMIT 100", true)

/-! ## `Validate` and its dialect validators (validator.go lines 9 to 69) -/

/-- `validateMySQL` (validator.go lines 38 to 57); every branch returns
true, reproduced structurally. -/
def validateMySQL (sql : String) : Bool :=
  if goStartsWith (goToLower sql) "select" then true
  else if ["insert into", "update", "delete from", "create table"].any
      (fun op => goStartsWith (goToLower sql) op) then true
  else true

/-- `validatePostgreSQL` delegates to `validateMySQL`. -/
def validatePostgreSQL (sql : String) : Bool := validateMySQL sql

/-- `validateSQLite` delegates to `validateMySQL`. -/
def validateSQLite (sql : String) : Bool := validateMySQL sql

/-- `Validate` (validator.go lines 9 to 35): trim, reject empty, re-run the
safety check, then dispatch on the lowered dialect.  The `error` return is
modelled as `Option String`. -/
def Validate (sql dialect : String) : Bool × Option String :=
  let sqlT := goTrimSpace sql
  if sqlT = "" then (false, some "SQL query cannot be empty")
  else
    let safetyCheck := IsSafeDDLOperation sqlT dialect
    if !safetyCheck.Safe then (false, some safetyCheck.Error)
    else
      match goToLower dialect with
      | "mysql" => (validateMySQL sqlT, none)
      | "postgresql" => (validatePostgreSQL sqlT, none)
      | "sqlite" => (validateSQLite sqlT, none)
      | _ => (false, some "unsupported SQL dialect")

/-! ## The execution shim (`executeQuery`, `ExecuteWithTimeout`, handler)

`executeQuery` (validator.go lines 304 to 367) calls `db.Query(query)` with
no context; `ExecuteWithTimeout` (access_control.go lines 11 to 18) calls
`db.QueryContext` under a 5-second deadline.  We record, for each code path,
the command it hands to the database driver: the statement text and the
context deadline attached, if any. -/

/-- A command issued to a database driver: the statement text and the
context deadline in milliseconds, `none` when the call carries no
deadline. -/
structure DBCommand where
  text : String
  deadlineMillis : Option Nat
deriving DecidableEq

/-- The driver command of `executeQuery` (validator.go line 305):
`db.Query(query)`, no context deadline. -/
def executeQueryCommand (query : String) : DBCommand :=
  ⟨query, none⟩

/-- The driver command of `ExecuteWithTimeout` (access_control.go lines
13 to 17): `db.QueryContext` under `context.WithTimeout(…, 5*time.Second)`. -/
def ExecuteWithTimeoutCommand (query : String) : DBCommand :=
  ⟨query, some 5000⟩

/-- The driver command issued by `validateAndExecuteSQL` (validator.go lines
245 to 301) for a request: after `IsSafeDDLOperation` and `Validate` pass
and a connection is obtained (`connOK` abstracts the outcome of
`GetDatabaseConnection`), the handler calls
`executeQuery(db, req.SQL, req.Dialect)` on the raw request text.
`none` means no command reaches the database. -/
def handlerCommand (reqSQL reqDialect : String) (connOK : Bool) : Option DBCommand :=
  if !(IsSafeDDLOperation reqSQL reqDialect).Safe then none
  else if !(Validate reqSQL reqDialect).1 then none
  else if !connOK then none
  else some (executeQueryCommand reqSQL)

/-- The row-collection loop of `executeQuery` (validator.go lines 324 to
360): fetch rows while available, but stop before scanning once ten rows
have been accumulated (`if count >= 10 { break }`). -/
def collectRows {α : Type} : List α → Nat → List α → List α
  | [], _, acc => acc
  | r :: rest, count, acc =>
      if count ≥ 10 then acc else collectRows rest (count + 1) (acc ++ [r])

/-- The result record built by `executeQuery` (validator.go lines 318 to
321 and 358): the column names and the collected rows, starting from a
zero count and an empty row list. -/
structure QueryResult (α : Type) where
  Columns : List String
  Rows : List α
deriving DecidableEq

/-- `executeQuery`'s result for a store that would return `storeRows`
(validator.go lines 304 to 367), abstracting scan and iteration errors
away: rows are collected by `collectRows` from count 0. -/
def executeQueryResult {α : Type} (columns : List String) (storeRows : List α) :
    QueryResult α :=
  ⟨columns, collectRows storeRows 0 []⟩

/-! ## The connection lifecycle manager (`dbmanager.go`)

The package-level Go maps `databases` and `connectionStatuses` become an
explicit state record of association lists with Go map semantics (assignment
replaces an existing key or inserts a new one).  Connection handles are
abstracted to `Nat` identifiers.  Each operation takes the outcomes of its
driver calls (ping results, connect successes, fresh handle identifiers) as
explicit oracle arguments. -/

/-- Lookup in an association list: Go `m[k]` with its ok flag. -/
def lookupA {α : Type} : List (String × α) → String → Option α
  | [], _ => none
  | (k, v) :: rest, key => if k = key then some v else lookupA rest key

/-- Go map assignment `m[k] = v`: replace the binding when the key is
present, append it otherwise. -/
def updateA {α : Type} : List (String × α) → String → α → List (String × α)
  | [], key, v => [(key, v)]
  | (k, w) :: rest, key, v =>
      if k = key then (k, v) :: rest else (k, w) :: updateA rest key v

/-- The mutable package state of `dbmanager` (dbmanager.go lines 14 to 31):
the `databases` connection map and the `connectionStatuses` map. -/
structure DBState where
  databases : List (String × Nat)
  connectionStatuses : List (String × Bool)
deriving DecidableEq

/-- The initial package state: `databases` empty, `connectionStatuses`
initialised with the three dialects mapped to `false` (dbmanager.go lines
16 to 23). -/
def initialState : DBState :=
  ⟨[], [("sqlite", false), ("mysql", false), ("postgresql", false)]⟩

/-- `tryConnect` (dbmanager.go lines 168 to 209): on a successful open,
ping and schema initialisation (`ok`), store the fresh handle and mark the
status reachable; on any failure return with the state untouched (failures
of the session-safety setters are only logged and do not fail the
connect). -/
def tryConnect (st : DBState) (dialect : String) (ok : Bool) (fresh : Nat) :
    Bool × DBState :=
  if ok then
    (true, ⟨updateA st.databases dialect fresh,
            updateA st.connectionStatuses dialect true⟩)
  else
    (false, st)

/-- `connectWithRetry` (dbmanager.go lines 154 to 165): up to
`outcomes.length` attempts (the `maxRetries` argument), stopping at the
first success; the inter-attempt sleep has no state effect. -/
def connectWithRetry (st : DBState) (dialect : String) :
    List (Bool × Nat) → DBState
  | [] => st
  | (ok, fresh) :: rest =>
      let attempt := tryConnect st dialect ok fresh
      if attempt.1 then attempt.2 else connectWithRetry attempt.2 dialect rest

/-- `initSQLite` (dbmanager.go lines 110 to 151) on success: store the
SQLite handle; `InitDatabases` (line 49) then marks the status true.  The
two updates are modelled as one step; on failure nothing is stored. -/
def initSQLiteState (st : DBState) (h : Nat) : DBState :=
  ⟨updateA st.databases "sqlite" h, updateA st.connectionStatuses "sqlite" true⟩

/-- `GetDatabaseConnection` (dbmanager.go lines 62 to 82): look up the
published connection; absent means the "no database connection available"
error.  When the liveness ping (`pingOK`) fails, mark the status false, run
`connectWithRetry` with `maxRetries = 1` (the single oracle outcome `rc`),
and look the connection up again: absent means the "failed to reconnect"
error, otherwise return whatever handle is now published. -/
def GetDatabaseConnection (st : DBState) (dialect : String) (pingOK : Bool)
    (rc : Bool × Nat) : Except String Nat × DBState :=
  match lookupA st.databases dialect with
  | none => (.error ("no database connection available for " ++ dialect), st)
  | some db =>
    if pingOK then (.ok db, st)
    else
      let st1 : DBState :=
        ⟨st.databases, updateA st.connectionStatuses dialect false⟩
      let st2 := connectWithRetry st1 dialect [rc]
      match lookupA st2.databases dialect with
      | none => (.error ("failed to reconnect to " ++ dialect), st2)
      | some db2 => (.ok db2, st2)

/-- The state effect of `GetConnectionStatuses` (dbmanager.go lines 85 to
97): for every dialect with a stored (non-nil) handle, re-ping it and
overwrite its status with the outcome (`pings`). -/
def refreshStatuses (st : DBState) (pings : String → Bool) : DBState :=
  ⟨st.databases,
   st.databases.foldl (fun acc entry => updateA acc entry.1 (pings entry.1))
     st.connectionStatuses⟩

/-- The mapping `GetConnectionStatuses` returns: the `connectionStatuses`
map after the refresh. -/
def GetConnectionStatuses (st : DBState) (pings : String → Bool) :
    List (String × Bool) :=
  (refreshStatuses st pings).connectionStatuses

/-- One observable mutation of the `dbmanager` package state, by any of the
operations the package exposes: SQLite startup (success or failure, with
`InitDatabases`' status write), one of the two background retry loops
launched by `InitDatabases` (dbmanager.go lines 53 and 56, for `mysql` and
`postgresql` only), a connection acquisition for an arbitrary requested
dialect, or a status report. -/
inductive Step : DBState → DBState → Prop
  | initSQLiteOk (st : DBState) (h : Nat) : Step st (initSQLiteState st h)
  | initSQLiteFail (st : DBState) : Step st st
  | retryLoop (st : DBState) (d : String) (hd : d = "mysql" ∨ d = "postgresql")
      (outcomes : List (Bool × Nat)) : Step st (connectWithRetry st d outcomes)
  | getConn (st : DBState) (d : String) (pingOK : Bool) (rc : Bool × Nat) :
      Step st (GetDatabaseConnection st d pingOK rc).2
  | getStatuses (st : DBState) (pings : String → Bool) :
      Step st (refreshStatuses st pings)

/-- States the `dbmanager` package can reach from its initial state. -/
def Reachable (st : DBState) : Prop :=
  Relation.ReflTransGen Step initialState st

/-- The three configured dialects, in the order of the
`connectionStatuses` initialiser. -/
def configuredDialects : List String := ["sqlite", "mysql", "postgresql"]

/-- The invariant behind claim C10: the status map's domain is exactly the
three configured dialects, and every stored connection belongs to a
configured dialect. -/
def StateInv (st : DBState) : Prop :=
  st.connectionStatuses.map Prod.fst = configuredDialects ∧
    ∀ d ∈ st.databases.map Prod.fst, d ∈ configuredDialects

/-! ## Spec-side characterisations (for refinement claims)

These two predicates follow the spec's words for the row-limit rewrite
conditions, independently of the source's `strings.TrimSpace` /
`regexp.MatchString` mechanics, so that the source behaviour can be proved
against them. -/

/-- Spec-side condition: after trimming leading whitespace, the (lowered)
text begins with the keyword `select`. -/
def SpecStartsWithSelect (l : List Char) : Prop :=
  "select".data <+: l.dropWhile isSpaceGo

/-- Spec-side condition: the (lowered) text contains a substring of the form
whitespace-run, `limit`, whitespace-run, digit. -/
def SpecLimitSubstring (l : List Char) : Prop :=
  ∃ pre w1 w2 d post,
    l = pre ++ w1 ++ "limit".data ++ w2 ++ d :: post ∧
    w1 ≠ [] ∧ (∀ c ∈ w1, isSpaceRe c = true) ∧
    w2 ≠ [] ∧ (∀ c ∈ w2, isSpaceRe c = true) ∧
    isDigitRe d = true

/-! ## Lemmas about the Go string primitives -/

theorem dropChunk_eq_some {p : List Char} :
    ∀ {s t : List Char}, dropChunk p s = some t ↔ s = p ++ t := by
  induction p with
  | nil => intro s t; simp [dropChunk]
  | cons a ps ih =>
    intro s t
    cases s with
    | nil => simp [dropChunk]
    | cons c cs =>
      by_cases h : a = c
      · subst h
        simp [dropChunk, ih]
      · simp [dropChunk, h, Ne.symm h]

theorem dropChunk_isSome {p s : List Char} :
    (dropChunk p s).isSome = true ↔ p <+: s := by
  rw [Option.isSome_iff_exists]
  constructor
  · rintro ⟨t, ht⟩
    exact ⟨t, (dropChunk_eq_some.mp ht).symm⟩
  · rintro ⟨t, ht⟩
    exact ⟨t, dropChunk_eq_some.mpr ht.symm⟩

theorem goStartsWith_iff {s pre : String} :
    goStartsWith s pre = true ↔ pre.data <+: s.data := by
  rw [goStartsWith, dropChunk_isSome]

/-- The trailing trim of `strings.TrimSpace` never affects whether the text
begins with `select`: the source's prefix test on the fully trimmed text
coincides with the spec's "after trimming leading whitespace" reading. -/
theorem goStartsWith_trim_select (s : String) :
    goStartsWith (goTrimSpace s) "select" = true ↔
      SpecStartsWithSelect s.data := by
  rw [goStartsWith_iff, SpecStartsWithSelect, goTrimSpace]
  show "select".data <+: ((s.data.dropWhile isSpaceGo).reverse.dropWhile isSpaceGo).reverse ↔ _
  set y := s.data.dropWhile isSpaceGo with hy
  constructor
  · intro h
    refine h.trans ?_
    have h1 : (y.reverse.dropWhile isSpaceGo) <:+ y.reverse :=
      List.dropWhile_suffix _
    have h2 := h1.reverse
    rwa [List.reverse_reverse] at h2
  · rintro ⟨r, hr⟩
    rw [← hr, List.reverse_append, List.dropWhile_append]
    by_cases he : (r.reverse.dropWhile isSpaceGo).isEmpty = true
    · rw [if_pos he]
      have : List.dropWhile isSpaceGo ("select".data.reverse) =
          "select".data.reverse := by decide
      rw [this, List.reverse_reverse]
    · rw [if_neg he, List.reverse_append, List.reverse_reverse]
      exact List.prefix_append _ _

/-! ## Lemmas about the regex matcher -/

theorem matchToks_nil (s : List Char) : matchToks [] s = true := rfl

/-- Consuming a whole chunk of class characters with a starred class and
then continuing succeeds. -/
theorem starAux_append {cl : CharClass} {k : List Char → Bool} :
    ∀ (w t : List Char), (∀ c ∈ w, cl.mem c = true) → k t = true →
      starAux cl k (w ++ t) = true := by
  intro w
  induction w with
  | nil =>
    intro t _ hk
    cases t with
    | nil => simpa [starAux] using hk
    | cons c rest => simp [starAux, hk]
  | cons c w ih =>
    intro t hw hk
    have hc : cl.mem c = true := hw c (by simp)
    have := ih t (fun x hx => hw x (by simp [hx])) hk
    simp [starAux, hc, this]

/-- A successful starred-class match splits the subject into a consumed
class chunk and a remainder accepted by the continuation. -/
theorem starAux_sound {cl : CharClass} {k : List Char → Bool} :
    ∀ {s : List Char}, starAux cl k s = true →
      ∃ w t, s = w ++ t ∧ (∀ c ∈ w, cl.mem c = true) ∧ k t = true := by
  intro s
  induction s with
  | nil =>
    intro h
    exact ⟨[], [], rfl, by simp, by simpa [starAux] using h⟩
  | cons c rest ih =>
    intro h
    rw [starAux, Bool.or_eq_true] at h
    rcases h with h | h
    · exact ⟨[], c :: rest, rfl, by simp, h⟩
    · rw [Bool.and_eq_true] at h
      obtain ⟨w, t, hs, hw, hk⟩ := ih h.2
      exact ⟨c :: w, t, by simp [hs], by simpa [h.1] using hw, hk⟩

theorem starAux_matchToks_nil {cl : CharClass} :
    ∀ s, starAux cl (matchToks []) s = true
  | [] => rfl
  | _ :: _ => by simp [starAux, matchToks]

/-- Completeness of the LIMIT detector on an explicitly decomposed
subject. -/
theorem matchLimit_complete {w1 w2 : List Char} {d : Char} {post : List Char}
    (h1 : w1 ≠ []) (hw1 : ∀ c ∈ w1, isSpaceRe c = true)
    (h2 : w2 ≠ []) (hw2 : ∀ c ∈ w2, isSpaceRe c = true)
    (hd : isDigitRe d = true) :
    matchToks limitPattern (w1 ++ "limit".data ++ w2 ++ d :: post) = true := by
  cases w1 with
  | nil => exact absurd rfl h1
  | cons c w1t =>
    have hc : isSpaceRe c = true := hw1 c (by simp)
    show (CharClass.ws.mem c &&
        starAux .ws (matchToks [.lit "limit".data, .plus .ws, .plus .digit])
          (w1t ++ "limit".data ++ w2 ++ d :: post)) = true
    rw [Bool.and_eq_true]
    refine ⟨hc, ?_⟩
    have hrest : matchToks [.lit "limit".data, .plus .ws, .plus .digit]
        ("limit".data ++ (w2 ++ d :: post)) = true := by
      have hdc : dropChunk "limit".data ("limit".data ++ (w2 ++ d :: post)) =
          some (w2 ++ d :: post) := dropChunk_eq_some.mpr rfl
      show (match dropChunk "limit".data ("limit".data ++ (w2 ++ d :: post)) with
        | some s1 => matchToks [.plus .ws, .plus .digit] s1
        | none => false) = true
      rw [hdc]
      cases w2 with
      | nil => exact absurd rfl h2
      | cons c2 w2t =>
        have hc2 : isSpaceRe c2 = true := hw2 c2 (by simp)
        show (CharClass.ws.mem c2 &&
            starAux .ws (matchToks [.plus .digit]) (w2t ++ d :: post)) = true
        rw [Bool.and_eq_true]
        refine ⟨hc2, starAux_append w2t (d :: post)
          (fun x hx => hw2 x (by simp [hx])) ?_⟩
        show (CharClass.digit.mem d && starAux .digit (matchToks []) post) = true
        simp [CharClass.mem, hd, starAux_matchToks_nil]
    have := @starAux_append .ws
      (matchToks [.lit "limit".data, .plus .ws, .plus .digit])
      w1t ("limit".data ++ (w2 ++ d :: post))
      (fun x hx => hw1 x (by simp [hx])) hrest
    simpa [List.append_assoc] using this

/-- Soundness of the LIMIT detector: a prefix match decomposes the subject
as whitespace-run, `limit`, whitespace-run, digit, remainder. -/
theorem matchLimit_sound {s : List Char}
    (h : matchToks limitPattern s = true) :
    ∃ w1 w2 d post,
      s = w1 ++ "limit".data ++ w2 ++ d :: post ∧
      w1 ≠ [] ∧ (∀ c ∈ w1, isSpaceRe c = true) ∧
      w2 ≠ [] ∧ (∀ c ∈ w2, isSpaceRe c = true) ∧
      isDigitRe d = true := by
  cases s with
  | nil => exact absurd h (by simp [limitPattern, matchToks])
  | cons c s1 =>
    rw [show matchToks limitPattern (c :: s1) =
          (CharClass.ws.mem c &&
            starAux .ws (matchToks [.lit "limit".data, .plus .ws, .plus .digit]) s1)
        from rfl, Bool.and_eq_true] at h
    obtain ⟨hc, hstar⟩ := h
    obtain ⟨w, t, hs1, hw, hk⟩ := starAux_sound hstar
    have hk1 : (match dropChunk "limit".data t with
        | some s1 => matchToks [.plus .ws, .plus .digit] s1
        | none => false) = true := hk
    rcases hdrop : dropChunk "limit".data t with _ | t2
    · rw [hdrop] at hk1; exact absurd hk1 (by simp)
    rw [hdrop] at hk1
    have hk := hk1
    have ht : t = "limit".data ++ t2 := dropChunk_eq_some.mp hdrop
    cases t2 with
    | nil => exact absurd hk (by simp [matchToks])
    | cons c2 t3 =>
      have hk3 : (CharClass.ws.mem c2 &&
          starAux .ws (matchToks [.plus .digit]) t3) = true := hk
      rw [Bool.and_eq_true] at hk3
      obtain ⟨hc2, hstar2⟩ := hk3
      obtain ⟨w2t, t4, ht3, hw2, hk2⟩ := starAux_sound hstar2
      cases t4 with
      | nil => exact absurd hk2 (by simp [matchToks])
      | cons d post =>
        have hk4 : (CharClass.digit.mem d &&
            starAux .digit (matchToks []) post) = true := hk2
        rw [Bool.and_eq_true] at hk4
        refine ⟨c :: w, c2 :: w2t, d, post, ?_, by simp, ?_, by simp, ?_, hk4.1⟩
        · simp only [List.cons_append, List.append_assoc]
          rw [hs1, ht, ht3]
          simp [List.append_assoc]
        · intro x hx
          rcases List.mem_cons.mp hx with hx | hx
          · exact hx ▸ hc
          · exact hw x hx
        · intro x hx
          rcases List.mem_cons.mp hx with hx | hx
          · exact hx ▸ hc2
          · exact hw2 x hx

/-- An unanchored search succeeds whenever the pattern matches at some
position. -/
theorem searchToks_mono {toks : List Tok} :
    ∀ (a b : List Char), matchToks toks b = true → searchToks toks (a ++ b) = true := by
  intro a
  induction a with
  | nil =>
    intro b hb
    cases b with
    | nil => exact hb
    | cons c rest => simp [searchToks, hb]
  | cons c a ih =>
    intro b hb
    simp [searchToks, ih b hb]

/-- A successful unanchored search yields a start position with a prefix
match. -/
theorem searchToks_sound {toks : List Tok} :
    ∀ {s : List Char}, searchToks toks s = true →
      ∃ a b, s = a ++ b ∧ matchToks toks b = true := by
  intro s
  induction s with
  | nil => intro h; exact ⟨[], [], rfl, h⟩
  | cons c rest ih =>
    intro h
    rw [searchToks, Bool.or_eq_true] at h
    rcases h with h | h
    · exact ⟨[], c :: rest, rfl, h⟩
    · obtain ⟨a, b, hs, hb⟩ := ih h
      exact ⟨c :: a, b, by simp [hs], hb⟩

/-- The source's LIMIT detector regex agrees exactly with the spec-side
substring characterisation. -/
theorem regexMatch_limit_iff (s : String) :
    regexMatch limitPattern s = true ↔ SpecLimitSubstring s.data := by
  constructor
  · intro h
    obtain ⟨a, b, hs, hb⟩ := searchToks_sound h
    obtain ⟨w1, w2, d, post, hbdec, h1, hw1, h2, hw2, hd⟩ := matchLimit_sound hb
    exact ⟨a, w1, w2, d, post, by simp [hs, hbdec, List.append_assoc],
      h1, hw1, h2, hw2, hd⟩
  · rintro ⟨pre, w1, w2, d, post, hdec, h1, hw1, h2, hw2, hd⟩
    rw [regexMatch, hdec]
    have hm := @matchLimit_complete w1 w2 d post h1 hw1 h2 hw2 hd
    have := searchToks_mono pre (w1 ++ "limit".data ++ w2 ++ d :: post) hm
    simpa [List.append_assoc] using this

/-! ## Lemmas about the blocklist loop -/

/-- The blocklist loop returns the message of the earliest matching
pattern, whatever the later patterns do. -/
theorem checkBlocked_first :
    ∀ (l : List (List Tok × String)) (s : List Char) (i : Nat)
      (hi : i < l.length),
      searchToks (l.get ⟨i, hi⟩).1 s = true →
      (∀ p ∈ l.take i, searchToks p.1 s = false) →
      checkBlocked l s = some (l.get ⟨i, hi⟩).2 := by
  intro l
  induction l with
  | nil => intro s i hi; exact absurd hi (by simp)
  | cons hd tl ih =>
    intro s i hi hm he
    cases i with
    | zero =>
      have hm0 : searchToks hd.1 s = true := hm
      simp [checkBlocked, hm0]
    | succ i =>
      have hhd : searchToks hd.1 s = false :=
        he hd (by simp [List.take_succ_cons])
      have htl := ih s i (by simpa using hi) hm
        (fun p hp => he p (by simp [List.take_succ_cons, hp]))
      simp [checkBlocked, hhd, htl]

/-! ## Lemmas about the row-collection loop -/

/-- The collection loop never grows the accumulator beyond the remaining
budget of ten rows. -/
theorem collectRows_length {α : Type} :
    ∀ (rows : List α) (count : Nat) (acc : List α),
      (collectRows rows count acc).length ≤ acc.length + (10 - count) := by
  intro rows
  induction rows with
  | nil => intro count acc; simp [collectRows]
  | cons r rest ih =>
    intro count acc
    by_cases h : count ≥ 10
    · simp [collectRows, h]
    · have hlt : count < 10 := Nat.lt_of_not_le h
      have := ih (count + 1) (acc ++ [r])
      simp only [collectRows, if_neg h]
      refine this.trans ?_
      simp only [List.length_append, List.length_singleton]
      omega

/-! ## Lemmas about the association-list state -/

theorem lookupA_updateA_self {α : Type} :
    ∀ (l : List (String × α)) (k : String) (v : α),
      lookupA (updateA l k v) k = some v := by
  intro l
  induction l with
  | nil => intro k v; simp [updateA, lookupA]
  | cons e rest ih =>
    intro k v
    by_cases h : e.1 = k
    · simp [updateA, h, lookupA]
    · simp [updateA, h, lookupA, ih]

theorem lookupA_mem {α : Type} :
    ∀ {l : List (String × α)} {k : String} {v : α},
      lookupA l k = some v → k ∈ l.map Prod.fst := by
  intro l
  induction l with
  | nil => intro k v h; exact absurd h (by simp [lookupA])
  | cons e rest ih =>
    intro k v h
    by_cases he : e.1 = k
    · simp [he]
    · rw [show lookupA (e :: rest) k = lookupA rest k by
          cases e; simp [lookupA]; intro hc; exact absurd hc he] at h
      simp [ih h]

theorem updateA_map_fst_of_mem {α : Type} :
    ∀ {l : List (String × α)} {k : String} (v : α),
      k ∈ l.map Prod.fst →
      (updateA l k v).map Prod.fst = l.map Prod.fst := by
  intro l
  induction l with
  | nil => intro k v h; exact absurd h (by simp)
  | cons e rest ih =>
    intro k v h
    by_cases he : e.1 = k
    · cases e; simp_all [updateA]
    · cases e with
      | mk k0 v0 =>
        have hk : k ∈ rest.map Prod.fst := by
          rcases List.mem_map.mp h with ⟨p, hp, hfst⟩
          rcases List.mem_cons.mp hp with hp | hp
          · exact absurd (hp ▸ hfst) he
          · exact List.mem_map.mpr ⟨p, hp, hfst⟩
        simp only at he
        simp [updateA, he, ih v hk]

/-! ## Preservation of the status-domain invariant -/

theorem stateInv_initial : StateInv initialState := by
  constructor
  · rfl
  · intro d hd
    simp [initialState] at hd

theorem updateA_mem_fst {α : Type} :
    ∀ (l : List (String × α)) (k : String) (v : α) (x : String),
      x ∈ (updateA l k v).map Prod.fst → x ∈ l.map Prod.fst ∨ x = k := by
  intro l
  induction l with
  | nil => intro k v x hx; simp [updateA] at hx; exact Or.inr hx
  | cons e rest ih =>
    intro k v x hx
    by_cases he : e.1 = k
    · rw [show updateA (e :: rest) k v = (e.1, v) :: rest by
          cases e; simp_all [updateA]] at hx
      rcases List.mem_map.mp hx with ⟨p, hp, hfst⟩
      rcases List.mem_cons.mp hp with hp | hp
      · exact Or.inr (by rw [← hfst, hp]; exact he)
      · exact Or.inl (List.mem_map.mpr ⟨p, by simp [hp], hfst⟩)
    · rw [show updateA (e :: rest) k v = e :: updateA rest k v by
          cases e; simp_all [updateA]] at hx
      rcases List.mem_map.mp hx with ⟨p, hp, hfst⟩
      rcases List.mem_cons.mp hp with hp | hp
      · exact Or.inl (List.mem_map.mpr ⟨p, by simp [hp], hfst⟩)
      · rcases ih k v x (List.mem_map.mpr ⟨p, hp, hfst⟩) with hx | hx
        · rcases List.mem_map.mp hx with ⟨q, hq, hqf⟩
          exact Or.inl (List.mem_map.mpr ⟨q, by simp [hq], hqf⟩)
        · exact Or.inr hx

theorem stateInv_tryConnect {st : DBState} {d : String}
    (hinv : StateInv st) (hd : d ∈ configuredDialects) (ok : Bool) (fresh : Nat) :
    StateInv (tryConnect st d ok fresh).2 := by
  rcases hinv with ⟨hstat, hdb⟩
  by_cases hok : ok = true
  · subst hok
    refine ⟨?_, ?_⟩
    · show (updateA st.connectionStatuses d true).map Prod.fst = configuredDialects
      rw [updateA_map_fst_of_mem true (by rw [hstat]; exact hd), hstat]
    · show ∀ x ∈ (updateA st.databases d fresh).map Prod.fst, x ∈ configuredDialects
      intro x hx
      rcases updateA_mem_fst st.databases d fresh x hx with hx | hx
      · exact hdb x hx
      · exact hx ▸ hd
  · have : tryConnect st d ok fresh = (false, st) := by
      simp [tryConnect, hok]
    rw [this]
    exact ⟨hstat, hdb⟩

theorem stateInv_connectWithRetry {st : DBState} {d : String}
    (hinv : StateInv st) (hd : d ∈ configuredDialects) :
    ∀ outcomes, StateInv (connectWithRetry st d outcomes) := by
  intro outcomes
  induction outcomes generalizing st with
  | nil => exact hinv
  | cons o rest ih =>
    rw [connectWithRetry]
    by_cases hfst : (tryConnect st d o.1 o.2).1 = true
    · simp only [hfst, if_true]
      exact stateInv_tryConnect hinv hd o.1 o.2
    · simp only [hfst, if_false, Bool.false_eq_true]
      exact ih (stateInv_tryConnect hinv hd o.1 o.2)

theorem stateInv_getConn {st : DBState} (hinv : StateInv st) (d : String)
    (pingOK : Bool) (rc : Bool × Nat) :
    StateInv (GetDatabaseConnection st d pingOK rc).2 := by
  rw [GetDatabaseConnection]
  rcases hlk : lookupA st.databases d with _ | db
  · exact hinv
  · have hd : d ∈ configuredDialects := hinv.2 d (lookupA_mem hlk)
    by_cases hping : pingOK = true
    · simp only [hlk, hping, if_true]
      exact hinv
    · have hst1 : StateInv ⟨st.databases, updateA st.connectionStatuses d false⟩ := by
        refine ⟨?_, hinv.2⟩
        show (updateA st.connectionStatuses d false).map Prod.fst = configuredDialects
        rw [updateA_map_fst_of_mem false (by rw [hinv.1]; exact hd), hinv.1]
      have hst2 := stateInv_connectWithRetry hst1 hd [rc]
      simp only [hlk, hping, if_false, Bool.false_eq_true]
      rcases hlk2 : lookupA (connectWithRetry
          ⟨st.databases, updateA st.connectionStatuses d false⟩ d [rc]).databases d with _ | db2
      · exact hst2
      · exact hst2

theorem stateInv_refresh {st : DBState} (hinv : StateInv st)
    (pings : String → Bool) : StateInv (refreshStatuses st pings) := by
  rcases hinv with ⟨hstat, hdb⟩
  refine ⟨?_, hdb⟩
  show (st.databases.foldl (fun acc entry => updateA acc entry.1 (pings entry.1))
      st.connectionStatuses).map Prod.fst = configuredDialects
  have main : ∀ (dbs : List (String × Nat)) (acc : List (String × Bool)),
      (∀ x ∈ dbs.map Prod.fst, x ∈ configuredDialects) →
      acc.map Prod.fst = configuredDialects →
      (dbs.foldl (fun acc entry => updateA acc entry.1 (pings entry.1)) acc).map
        Prod.fst = configuredDialects := by
    intro dbs
    induction dbs with
    | nil => intro acc _ hacc; exact hacc
    | cons e rest ih =>
      intro acc hkeys hacc
      rw [List.foldl_cons]
      refine ih (updateA acc e.1 (pings e.1))
        (fun x hx => hkeys x (by simp [hx])) ?_
      rw [updateA_map_fst_of_mem (pings e.1) (by rw [hacc]; exact hkeys e.1 (by simp)), hacc]
  exact main st.databases st.connectionStatuses hdb hstat

theorem stateInv_step {st st2 : DBState} (hinv : StateInv st)
    (hstep : Step st st2) : StateInv st2 := by
  cases hstep with
  | initSQLiteOk h =>
    rcases hinv with ⟨hstat, hdb⟩
    refine ⟨?_, ?_⟩
    · show (updateA st.connectionStatuses "sqlite" true).map Prod.fst = configuredDialects
      rw [updateA_map_fst_of_mem true (by rw [hstat]; decide), hstat]
    · show ∀ x ∈ (updateA st.databases "sqlite" h).map Prod.fst, x ∈ configuredDialects
      intro x hx
      rcases updateA_mem_fst st.databases "sqlite" h x hx with hx | hx
      · exact hdb x hx
      · rw [hx]; decide
  | initSQLiteFail => exact hinv
  | retryLoop d hd outcomes =>
    refine stateInv_connectWithRetry hinv ?_ outcomes
    rcases hd with hd | hd <;> rw [hd] <;> decide
  | getConn d pingOK rc => exact stateInv_getConn hinv d pingOK rc
  | getStatuses pings => exact stateInv_refresh hinv pings

theorem reachable_stateInv {st : DBState} (h : Reachable st) : StateInv st := by
  induction h with
  | refl => exact stateInv_initial
  | tail _ hstep ih => exact stateInv_step ih hstep

/-! ## Remaining auxiliary lemmas -/

theorem goToLower_append (s t : String) :
    goToLower (s ++ t) = goToLower s ++ goToLower t := by
  show String.mk ((s ++ t).data.map goToLowerChar) = _
  rw [String.data_append, List.map_append]
  rfl

/-! ## Claim theorems -/

set_option maxRecDepth 4000

/-- Claim C1, counterexample: for the approved statement
`SELECT * FROM test`, the handler hands the raw request text to the
database, while the row-limit rewrite of that statement is the different
text `SELECT * FROM test LIMIT 100`; so the executed statement is not the
rewrite output. -/
theorem C1_counterexample :
    handlerCommand "SELECT * FROM test" "sqlite" true =
      some ⟨"SELECT * FROM test", none⟩ ∧
    (HasLimitForSelect "SELECT * FROM test").1 = "SELECT * FROM test LIMIT 100" ∧
    ("SELECT * FROM test" : String) ≠ "SELECT * FROM test LIMIT 100" := by
  refine ⟨by decide, by decide, by decide⟩

/-- Claim C1, amended: whenever the handler issues a database command for a
request, the statement text it executes is the raw submitted text
(`req.SQL`); the row-limit rewrite is never applied on the execution
path. -/
theorem C1_executed_text_is_raw_submission (reqSQL reqDialect : String)
    (connOK : Bool) (cmd : DBCommand)
    (h : handlerCommand reqSQL reqDialect connOK = some cmd) :
    cmd.text = reqSQL := by
  rw [handlerCommand] at h
  split_ifs at h
  all_goals simp at h
  subst h
  rfl

/-- Witness for C1's amended theorem at a concrete approved request. -/
theorem C1_witness : (⟨"SELECT 1", none⟩ : DBCommand).text = "SELECT 1" :=
  C1_executed_text_is_raw_submission "SELECT 1" "sqlite" true
    ⟨"SELECT 1", none⟩ (by decide)

/-- Claim C2, counterexample: the command the handler issues for an
approved statement carries no context deadline at all, so execution is not
run under a context-deadline timeout. -/
theorem C2_counterexample :
    handlerCommand "SELECT * FROM test_data" "sqlite" true =
      some { text := "SELECT * FROM test_data", deadlineMillis := none } := by
  decide

/-- Claim C2, amended: every database command the handler issues carries no
context deadline (`executeQuery` calls `db.Query` directly), while the
unused helper `ExecuteWithTimeout` would attach a five-second deadline. -/
theorem C2_no_deadline_on_execution (reqSQL reqDialect : String)
    (connOK : Bool) (cmd : DBCommand)
    (h : handlerCommand reqSQL reqDialect connOK = some cmd) :
    cmd.deadlineMillis = none ∧
    ∀ q : String, (ExecuteWithTimeoutCommand q).deadlineMillis = some 5000 := by
  refine ⟨?_, fun q => rfl⟩
  rw [handlerCommand] at h
  split_ifs at h
  all_goals simp at h
  subst h
  rfl

/-- Witness for C2's amended theorem at a concrete approved request. -/
theorem C2_witness :
    (⟨"SELECT 2", none⟩ : DBCommand).deadlineMillis = none ∧
    (ExecuteWithTimeoutCommand "SELECT 2").deadlineMillis = some 5000 := by
  have h := C2_no_deadline_on_execution "SELECT 2" "sqlite" true
    ⟨"SELECT 2", none⟩ (by decide)
  exact ⟨h.1, h.2 "SELECT 2"⟩

/-- Claim C3, counterexample: with a published (stale) mysql handle `7`, a
failing liveness probe and a failing single reconnect attempt, acquisition
returns the old handle `7` with no error — not a fresh handle and not a
"no connection available" failure — because the failed reconnect leaves the
stale entry in the connection map. -/
theorem C3_counterexample :
    (GetDatabaseConnection ⟨[("mysql", 7)],
        [("sqlite", true), ("mysql", true), ("postgresql", false)]⟩
      "mysql" false (false, 99)).1 = Except.ok 7 ∧
    (GetDatabaseConnection ⟨[("mysql", 7)],
        [("sqlite", true), ("mysql", true), ("postgresql", false)]⟩
      "mysql" false (false, 99)).2.databases = [("mysql", 7)] := by
  exact ⟨rfl, rfl⟩

/-- Claim C3, amended: acquisition returns the published connection when
the probe succeeds; on probe failure it marks the dialect's status
unreachable and makes exactly one reconnect attempt, after which it returns
the handle then published — the fresh handle when the reconnect succeeded,
otherwise the original stale handle with no error; the "no connection
available" error arises exactly when no connection is published for the
dialect. -/
theorem C3_acquisition_behavior (st : DBState) (d : String) (fresh : Nat) :
    (lookupA st.databases d = none →
      GetDatabaseConnection st d false (false, fresh) =
        (.error ("no database connection available for " ++ d), st)) ∧
    ∀ db, lookupA st.databases d = some db →
      GetDatabaseConnection st d true (false, fresh) = (.ok db, st) ∧
      (GetDatabaseConnection st d false (true, fresh)).1 = .ok fresh ∧
      (GetDatabaseConnection st d false (false, fresh)).1 = .ok db ∧
      lookupA (GetDatabaseConnection st d false (false, fresh)).2.connectionStatuses d
        = some false := by
  constructor
  · intro hnone
    rw [GetDatabaseConnection, hnone]
  · intro db hdb
    refine ⟨?_, ?_, ?_, ?_⟩
    · rw [GetDatabaseConnection, hdb]
      rfl
    · rw [GetDatabaseConnection, hdb]
      simp only [if_false, Bool.false_eq_true]
      rw [show connectWithRetry ⟨st.databases, updateA st.connectionStatuses d false⟩
            d [(true, fresh)] =
          ⟨updateA st.databases d fresh,
            updateA (updateA st.connectionStatuses d false) d true⟩ by
        simp [connectWithRetry, tryConnect]]
      rw [show lookupA (updateA st.databases d fresh) d = some fresh from
        lookupA_updateA_self _ _ _]
    · rw [GetDatabaseConnection, hdb]
      simp only [if_false, Bool.false_eq_true]
      rw [show connectWithRetry ⟨st.databases, updateA st.connectionStatuses d false⟩
            d [(false, fresh)] =
          ⟨st.databases, updateA st.connectionStatuses d false⟩ by
        simp [connectWithRetry, tryConnect]]
      rw [hdb]
    · rw [GetDatabaseConnection, hdb]
      simp only [if_false, Bool.false_eq_true]
      rw [show connectWithRetry ⟨st.databases, updateA st.connectionStatuses d false⟩
            d [(false, fresh)] =
          ⟨st.databases, updateA st.connectionStatuses d false⟩ by
        simp [connectWithRetry, tryConnect]]
      rw [hdb]
      exact lookupA_updateA_self _ _ _

/-- Witness for C3's amended theorem at a concrete state with a published
mysql handle. -/
theorem C3_witness :
    GetDatabaseConnection ⟨[("mysql", 5)],
        [("sqlite", false), ("mysql", true), ("postgresql", false)]⟩
      "mysql" true (false, 42) =
      (.ok 5, ⟨[("mysql", 5)],
        [("sqlite", false), ("mysql", true), ("postgresql", false)]⟩) ∧
    (GetDatabaseConnection ⟨[("mysql", 5)],
        [("sqlite", false), ("mysql", true), ("postgresql", false)]⟩
      "mysql" false (true, 42)).1 = .ok 42 := by
  have h := (C3_acquisition_behavior ⟨[("mysql", 5)],
      [("sqlite", false), ("mysql", true), ("postgresql", false)]⟩
    "mysql" 42).2 5 rfl
  exact ⟨h.1, h.2.1⟩

/-- Claim C4: the code evaluated at the failing input
`SELECT * FROM test LIMIT ?;` — the LIMIT detector requires digits after
`limit`, so the placeholder form is not recognised and the statement is
rewritten, contradicting the repository's own test
`TestHasLimitForSelectParameterLimit` and the spec. -/
theorem C4_parameter_limit_rewritten :
    HasLimitForSelect "SELECT * FROM test LIMIT ?;" =
      ("SELECT * FROM test LIMIT ?; LIMIT 100", true) := by
  decide

/-- Claim C5, counterexample: `select * from users where 1=1` is approved
(not denied) for the supported dialect `sqlite`. -/
theorem C5_counterexample :
    (IsSafeDDLOperation "select * from users where 1=1" "sqlite").Safe = true := by
  decide

/-- Claim C5, amended: the tautological-`WHERE 1=1` statement in SELECT
form is approved for every supported dialect — the tautology rules match
only DELETE and UPDATE statements — while the DELETE variant is denied with
the mass-delete message. -/
theorem C5_tautology_rules :
    (∀ d ∈ configuredDialects,
      (IsSafeDDLOperation "select * from users where 1=1" d).Safe = true) ∧
    IsSafeDDLOperation "DELETE FROM widgets WHERE 1=1" "sqlite" =
      ⟨false, "DELETE all records operations are not allowed"⟩ := by
  decide

/-- Claim C6: when the case-folded statement matches the pattern at
position `i` of the blocklist and no earlier pattern matches, the
gatekeeper denies with exactly that pattern's message, for every dialect
and regardless of later patterns. -/
theorem C6_first_match_wins (sql dialect : String) (i : Nat)
    (hi : i < blockedPatterns.length)
    (hm : searchToks (blockedPatterns.get ⟨i, hi⟩).1 (goToLower sql).data = true)
    (he : ∀ p ∈ blockedPatterns.take i, searchToks p.1 (goToLower sql).data = false) :
    IsSafeDDLOperation sql dialect = ⟨false, (blockedPatterns.get ⟨i, hi⟩).2⟩ := by
  have hcb := checkBlocked_first blockedPatterns (goToLower sql).data i hi hm he
  simp only [IsSafeDDLOperation, hcb]

/-- Witness for C6 at `shutdown; drop table t`: the shutdown rule at
position 6 is the earliest match (the later DROP TABLE and injection rules
also match) and its message is returned. -/
theorem C6_witness :
    IsSafeDDLOperation "shutdown; drop table t" "mysql" =
      ⟨false, "SHUTDOWN operations are not allowed"⟩ := by
  have h := C6_first_match_wins "shutdown; drop table t" "mysql" 6
    (by decide) (by decide) (by decide)
  exact h.trans (by decide)

/-- Claim C7: a statement that begins (after leading whitespace,
case-insensitively) with SELECT and contains no
whitespace-`limit`-whitespace-digits substring gets ` LIMIT 100` appended
at the very end with the flag true; every other statement is returned
unchanged with the flag false. -/
theorem C7_rowLimit_rewrite (sql : String) :
    (SpecStartsWithSelect (goToLower sql).data ∧
        ¬ SpecLimitSubstring (goToLower sql).data →
      HasLimitForSelect sql = (sql ++ " LIMIT 100", true)) ∧
    (¬ (SpecStartsWithSelect (goToLower sql).data ∧
        ¬ SpecLimitSubstring (goToLower sql).data) →
      HasLimitForSelect sql = (sql, false)) := by
  have e1 := goStartsWith_trim_select (goToLower sql)
  have e2 := regexMatch_limit_iff (goToLower sql)
  constructor
  · rintro ⟨hsel, hlim⟩
    have hb1 : goStartsWith (goTrimSpace (goToLower sql)) "select" = true :=
      e1.mpr hsel
    have hb2 : ¬ regexMatch limitPattern (goToLower sql) = true :=
      fun hb => hlim (e2.mp hb)
    simp [HasLimitForSelect, hb1, hb2]
  · intro hn
    by_cases hb1 : goStartsWith (goTrimSpace (goToLower sql)) "select" = true
    · by_cases hb2 : regexMatch limitPattern (goToLower sql) = true
      · simp [HasLimitForSelect, hb1, hb2]
      · exact absurd ⟨e1.mp hb1, fun hs => hb2 (e2.mpr hs)⟩ hn
    · simp [HasLimitForSelect, hb1]

/-- Witness for C7 at a SELECT without a limit clause. -/
theorem C7_witness :
    HasLimitForSelect "SELECT id FROM t" = ("SELECT id FROM t LIMIT 100", true) :=
  (C7_rowLimit_rewrite "SELECT id FROM t").1
    ⟨by unfold SpecStartsWithSelect; decide,
     fun hs => absurd ((regexMatch_limit_iff (goToLower "SELECT id FROM t")).mpr hs)
       (by decide)⟩

/-- Claim C8: the rewrite is idempotent — applied to the statement
component of its own output it never rewrites again and reports the flag
false. -/
theorem C8_rewrite_idempotent (sql : String) :
    HasLimitForSelect (HasLimitForSelect sql).1 = ((HasLimitForSelect sql).1, false) := by
  by_cases hb1 : goStartsWith (goTrimSpace (goToLower sql)) "select" = true
  · by_cases hb2 : regexMatch limitPattern (goToLower sql) = true
    · have h1 : HasLimitForSelect sql = (sql, false) := by
        simp [HasLimitForSelect, hb1, hb2]
      rw [h1]
      simpa using h1
    · have h1 : HasLimitForSelect sql = (sql ++ " LIMIT 100", true) := by
        simp [HasLimitForSelect, hb1, hb2]
      rw [h1]
      have hlim : regexMatch limitPattern (goToLower (sql ++ " LIMIT 100")) = true := by
        rw [goToLower_append]
        rw [show goToLower " LIMIT 100" = " limit 100" from by decide]
        rw [regexMatch, String.data_append]
        exact searchToks_mono _ _ (by decide)
      by_cases hb1b : goStartsWith (goTrimSpace (goToLower (sql ++ " LIMIT 100")))
          "select" = true
      · simp [HasLimitForSelect, hb1b, hlim]
      · simp [HasLimitForSelect, hb1b]
  · have h1 : HasLimitForSelect sql = (sql, false) := by
      simp [HasLimitForSelect, hb1]
    rw [h1]
    simpa using h1

/-- Claim C9: however many rows the backing store would return, the result
`executeQuery` builds contains at most ten rows. -/
theorem C9_row_cap {α : Type} (columns : List String) (storeRows : List α) :
    (executeQueryResult columns storeRows).Rows.length ≤ 10 := by
  have h := collectRows_length storeRows 0 []
  simpa [executeQueryResult] using h

/-- Claim C10: in every reachable state of the connection manager the
status map's domain is exactly the three configured dialects, and hence
every mapping `GetConnectionStatuses` returns has exactly that domain. -/
theorem C10_status_domain (st : DBState) (h : Reachable st) :
    st.connectionStatuses.map Prod.fst = configuredDialects ∧
    ∀ pings, (GetConnectionStatuses st pings).map Prod.fst = configuredDialects := by
  refine ⟨(reachable_stateInv h).1, fun pings => ?_⟩
  exact (stateInv_refresh (reachable_stateInv h) pings).1

/-- Witness for C10 at the initial state. -/
theorem C10_witness :
    initialState.connectionStatuses.map Prod.fst = configuredDialects :=
  (C10_status_domain initialState Relation.ReflTransGen.refl).1
end SqlPlayground
